import Mathlib

/-!
Shallow embedding of the glazewm container tree and the operations covered by
the specification: the tiling resize distribution
(`containers/commands/resize_tiling_container.rs`), the focus-target selection
after removal and the redraw-queue expansion (`wm_state.rs`), the focused-event
handler (`common/events/handle_window_focused.rs`), and the workspace
fullscreen lookup (`workspaces/workspace.rs`).

Containers are modelled as a rose tree carrying the container id, the node
kind, the ordered child list, and the child-focus-order list of child ids.
Floating-point tiling sizes are modelled as rationals (exact real-number
semantics of the same arithmetic). Native window handles are identified with
window ids. Externally visible operations of the handler (window rules,
workspace switches, focus updates, demotions) are recorded in an effect list
alongside the state.
-/

namespace Glazewm

/-- Window states from `windows/window_state.rs` (the payloads carried by the
`Floating` and `Fullscreen` variants are configuration records that none of
the covered code inspects beyond wildcard matches, so they are dropped). -/
inductive WindowState where
  | Tiling
  | Floating
  | Fullscreen
  | Minimized
deriving DecidableEq, Repr

/-- Display states from `common/display_state.rs`. -/
inductive DisplayState where
  | Shown
  | Showing
  | Hiding
  | Hidden
deriving DecidableEq, Repr

/-- Per-window payload: current state, stashed previous state, display state. -/
structure WindowData where
  winState : WindowState
  prevState : Option WindowState := none
  displayState : DisplayState := .Shown
deriving DecidableEq, Repr

/-- Container variants. A monitor records the id of its displayed workspace. -/
inductive NodeKind where
  | root
  | monitor (displayedWorkspace : Option Nat)
  | workspace (name : String)
  | split
  | window (data : WindowData)
deriving DecidableEq, Repr

/-- A container: stable id, kind, ordered children, child focus order
(most-recently-focused child ids first). -/
inductive Ctr where
  | node (id : Nat) (kind : NodeKind) (children : List Ctr) (focusOrder : List Nat)
deriving Repr

def Ctr.id : Ctr → Nat
  | .node i _ _ _ => i

def Ctr.kind : Ctr → NodeKind
  | .node _ k _ _ => k

def Ctr.children : Ctr → List Ctr
  | .node _ _ cs _ => cs

def Ctr.focusOrder : Ctr → List Nat
  | .node _ _ _ fo => fo

def Ctr.windowData : Ctr → Option WindowData
  | .node _ (.window d) _ _ => some d
  | _ => none

/-- Whether the container converts to a `WindowContainer` (Rust
`as_window_container().is_ok()`). -/
def Ctr.isWindow (c : Ctr) : Bool :=
  c.windowData.isSome

def Ctr.displayState (c : Ctr) : Option DisplayState :=
  c.windowData.map (fun d => d.displayState)

def Ctr.winState (c : Ctr) : Option WindowState :=
  c.windowData.map (fun d => d.winState)

def Ctr.isWorkspace (c : Ctr) : Bool :=
  match c.kind with
  | .workspace _ => true
  | _ => false

def Ctr.workspaceName (c : Ctr) : Option String :=
  match c.kind with
  | .workspace n => some n
  | _ => none

mutual

/-- Rust `CommonGetters::self_and_descendants`: the container followed by its
descendants, depth-first with children in structural order. -/
def Ctr.selfAndDescendants : Ctr → List Ctr
  | .node i k cs fo => .node i k cs fo :: Ctr.listDescendants cs

def Ctr.listDescendants : List Ctr → List Ctr
  | [] => []
  | c :: rest => c.selfAndDescendants ++ Ctr.listDescendants rest

end

/-- Rust `CommonGetters::descendants`: depth-first descendants, excluding the
container itself. -/
def Ctr.descendants (t : Ctr) : List Ctr :=
  Ctr.listDescendants t.children

/-- Whether the subtree rooted at `t` contains a container with id `i`. -/
def Ctr.containsId (t : Ctr) (i : Nat) : Bool :=
  t.selfAndDescendants.any (fun c => c.id == i)

mutual

/-- Deepest descendant reachable by following the front of each
`child_focus_order`; the container itself once no focused child exists.
Modelled from the spec (§3 invariant 7): the focused container is the deepest
descendant obtainable by following `child_focus_order[0]`. -/
def Ctr.lfdOrSelf : Ctr → Ctr
  | .node i k cs fo => (Ctr.lfdPick cs fo.head?).getD (.node i k cs fo)

def Ctr.lfdPick : List Ctr → Option Nat → Option Ctr
  | [], _ => none
  | c :: rest, h => if some c.id = h then some (Ctr.lfdOrSelf c) else Ctr.lfdPick rest h

end

/-- Modelled from the spec (§3 invariant 7, §4.B `last_focused_descendant`):
descend through the child at the front of each focus order; `none` when the
container has no matching focused child. -/
def Ctr.lastFocusedDescendant (t : Ctr) : Option Ctr :=
  Ctr.lfdPick t.children t.focusOrder.head?

/-- Children of `entries` keyed by id, emitted in the order given by the focus
order `fo`: for each id the matching entry's preorder listing. -/
def orderByFocus (entries : List (Nat × List Ctr)) (fo : List Nat) : List Ctr :=
  (fo.map (fun i => (((entries.find? (fun e => e.1 == i)).map Prod.snd).getD []))).flatten

mutual

/-- Modelled from the spec (§4.B `descendant_focus_order`): depth-first walk
guided at each level by `child_focus_order` instead of structural order. -/
def Ctr.descendantFocusOrder : Ctr → List Ctr
  | .node _ _ cs fo => orderByFocus (Ctr.dfoChildren cs) fo

def Ctr.dfoChildren : List Ctr → List (Nat × List Ctr)
  | [] => []
  | c :: rest => (c.id, c :: c.descendantFocusOrder) :: Ctr.dfoChildren rest

end

mutual

/-- Structure-preserving update of every node kind; `f` receives the original
node and yields its new kind. -/
def Ctr.mapKind : Ctr → (Ctr → NodeKind) → Ctr
  | .node i k cs fo, f => .node i (f (.node i k cs fo)) (Ctr.mapKindList cs f) fo

def Ctr.mapKindList : List Ctr → (Ctr → NodeKind) → List Ctr
  | [], _ => []
  | c :: rest, f => Ctr.mapKind c f :: Ctr.mapKindList rest f

end

/-- Move id `i` to the front of a focus order list. -/
def moveToFront (fo : List Nat) (i : Nat) : List Nat :=
  i :: fo.filter (fun j => j != i)

mutual

/-- Modelled from the spec (§4.B `set_focused_descendant`): promote the
target's id to the front of each ancestor's `child_focus_order`, up to the
root (the handler passes no end ancestor). -/
def Ctr.setFocusedDescendant : Ctr → Nat → Ctr
  | .node i k cs fo, target =>
      .node i k (Ctr.setFocusedList cs target)
        (match (cs.find? (fun c => c.containsId target)).map Ctr.id with
         | some cid => moveToFront fo cid
         | none => fo)

def Ctr.setFocusedList : List Ctr → Nat → List Ctr
  | [], _ => []
  | c :: rest, target => c.setFocusedDescendant target :: Ctr.setFocusedList rest target

end

/-! ## Resize distribution (`containers/commands/resize_tiling_container.rs`)

The Rust code reads and writes only the tiling size of the resized container
and of its tiling siblings, so the embedding works on that data directly: the
container's own size and the list of its tiling siblings' sizes, in order. -/

/-- `const MIN_TILING_SIZE: f32 = 0.01`. -/
def MIN_TILING_SIZE : ℚ := 1 / 100

/-- Rust `available_size`: fold accumulating `sum + size − MIN_TILING_SIZE`. -/
def availableSize (containers : List ℚ) : ℚ :=
  containers.foldl (fun sum c => sum + c - MIN_TILING_SIZE) 0

/-- Rust `sibling_size_delta`. -/
def siblingSizeDelta (siblingSize : ℚ) (siblingCount : Nat)
    (targetSize availSize : ℚ) : ℚ :=
  let conAvailableSize := siblingSize - MIN_TILING_SIZE
  let resizeFactor :=
    if availSize = 0 ∨ targetSize < 0 then 1 / (siblingCount : ℚ)
    else conAvailableSize / availSize
  resizeFactor * targetSize

/-- Rust `resize_tiling_container`: returns the container's new tiling size and
the siblings' new tiling sizes. -/
def resizeTilingContainer (size : ℚ) (tilingSiblings : List ℚ)
    (targetSize : ℚ) : ℚ × List ℚ :=
  if tilingSiblings.isEmpty then (size, tilingSiblings)
  else
    let availSize := availableSize tilingSiblings
    let clampedTargetSize := min (max targetSize (MIN_TILING_SIZE - size)) availSize
    (size + clampedTargetSize,
     tilingSiblings.map (fun s =>
       s - siblingSizeDelta s tilingSiblings.length clampedTargetSize availSize))

/-! ## WM state (`wm_state.rs`) -/

/-- Externally visible operations performed by the focused-event handler. -/
inductive Effect where
  | demoted (id : Nat)
  | switchedWorkspace (name : String)
  | setFocused (id : Nat)
  | ranWindowRules (id : Nat)
deriving DecidableEq, Repr

/-- The fields of `WmState` the covered code touches. Time is in milliseconds;
`now` stands for the current instant, so `elapsed = now − timestamp`. -/
structure WmState where
  rootContainer : Ctr
  pendingSyncFocusChange : Bool
  unmanagedOrMinimizedTimestamp : Option Nat
  now : Nat
deriving Repr

/-- Rust `WmState::focused_container`:
`self.root_container.last_focused_descendant()`. -/
def WmState.focusedContainer (st : WmState) : Option Ctr :=
  st.rootContainer.lastFocusedDescendant

/-- Id of the WM's focused container (Rust container equality compares ids). -/
def WmState.focusedContainerId (st : WmState) : Option Nat :=
  st.focusedContainer.map Ctr.id

/-- Rust `WmState::workspaces`: children of monitors, which are children of
the root. -/
def workspacesOf (root : Ctr) : List Ctr :=
  ((root.children.map Ctr.children).flatten).filter Ctr.isWorkspace

/-- Modelled from the spec (§4.B `workspace(c)`, §3 invariant 5): the nearest
workspace ancestor, i.e. the unique workspace whose subtree holds the id. -/
def workspaceOf (root : Ctr) (cid : Nat) : Option Ctr :=
  (workspacesOf root).find? (fun ws => ws.containsId cid)

/-- Rust `WmState::window_from_native`: scan `windows()` (window descendants
of the root) for the matching native handle; handles are identified with ids. -/
def windowFromNative (root : Ctr) (nativeId : Nat) : Option Ctr :=
  (root.descendants.filter Ctr.isWindow).find? (fun w => w.id == nativeId)

/-- Modelled from the spec (§3 ownership: non-owning references are dropped if
the id no longer resolves): a container is detached when its id no longer
resolves inside the root's subtree. -/
def isDetached (root : Ctr) (c : Ctr) : Bool :=
  !(root.containsId c.id)

/-- Rust `WmState::windows_to_redraw`: expand each queued container to itself
and its descendants, drop detached containers, keep windows. The upstream
deduplication step is commented out in the source (`// .unique()`). -/
def windowsToRedraw (root : Ctr) (containersToRedraw : List Ctr) : List Ctr :=
  (((containersToRedraw.map Ctr.selfAndDescendants).flatten).filter
      (fun c => !(isDetached root c))).filterMap
    (fun c => if c.isWindow then some c else none)

/-- The `match` on state pairs inside `focus_target_after_removal`. -/
def kindMatch : WindowState → WindowState → Bool
  | .Tiling, .Tiling => true
  | .Floating, .Floating => true
  | .Fullscreen, .Fullscreen => true
  | _, _ => false

/-- Rust `filter_map(|c| c.as_window_container().ok())`, keeping the window
payload alongside the container. -/
def asWindowData (c : Ctr) : Option (Ctr × WindowData) :=
  c.windowData.map (fun d => (c, d))

/-- Rust `WmState::focus_target_after_removal`. -/
def focusTargetAfterRemoval (st : WmState) (removedWindow : Ctr) : Option Ctr :=
  if st.focusedContainerId ≠ some removedWindow.id then none
  else
    match workspaceOf st.rootContainer removedWindow.id with
    | none => none
    | some workspace =>
      let descendantFocusOrder :=
        workspace.descendantFocusOrder.filter
          (fun descendant => descendant.id != removedWindow.id)
      let focusTargetOfType :=
        ((descendantFocusOrder.filterMap asWindowData).find?
          (fun descendant =>
            match removedWindow.windowData with
            | some wd => kindMatch descendant.2.winState wd.winState
            | none => false)).map Prod.fst
      match focusTargetOfType with
      | some target => some target
      | none =>
        let nonMinimizedFocusTarget :=
          ((descendantFocusOrder.filterMap asWindowData).find?
            (fun descendant => descendant.2.winState != .Minimized)).map Prod.fst
        (nonMinimizedFocusTarget.or descendantFocusOrder.head?).or (some workspace)

/-- The focus-target selection as claim C4 words it: `none` unless the removed
window is the WM's focused container; otherwise, with `D` the workspace's
descendant focus order minus the removed window, the first window in `D` whose
state kind matches (Minimized matching nothing), else the first non-minimized
window in `D`, else the first entry of `D` of any container kind, else the
workspace itself. -/
def focusTargetSpecSide (st : WmState) (removedWindow : Ctr) : Option Ctr :=
  if st.focusedContainerId ≠ some removedWindow.id then none
  else
    match workspaceOf st.rootContainer removedWindow.id with
    | none => none
    | some workspace =>
      let d :=
        workspace.descendantFocusOrder.filter
          (fun descendant => descendant.id != removedWindow.id)
      let sameKind :=
        d.find? (fun descendant => descendant.isWindow &&
          (match descendant.windowData, removedWindow.windowData with
           | some dd, some wd => kindMatch dd.winState wd.winState
           | _, _ => false))
      let nonMinimized :=
        d.find? (fun descendant => descendant.isWindow &&
          (match descendant.windowData with
           | some dd => dd.winState != .Minimized
           | none => false))
      sameKind.or (nonMinimized.or (d.head?.or (some workspace)))

/-! ## Focused-event handler (`common/events/handle_window_focused.rs`) -/

/-- Modelled from the spec (§4.C, entering `Minimized`): stash the previous
state on the window and set its state to `Minimized`; the window stays in
the tree. This is `update_window_state(w, WindowState::Minimized, ..)` as the
handler invokes it, the command itself living outside the covered sources. -/
def updateWindowStateMinimized (root : Ctr) (target : Nat) : Ctr :=
  root.mapKind (fun n =>
    if n.id = target then
      match n.kind with
      | .window d => .window { d with winState := .Minimized, prevState := some d.winState }
      | k => k
    else n.kind)

/-- Modelled from the spec (§4.E `focus_workspace`): resolve the target
workspace by name, mark its monitor as displaying it, and set the focused
descendant to the workspace's last-focused window (or the workspace itself if
empty). -/
def focusWorkspaceByName (st : WmState) (name : String) : WmState × List Effect :=
  match (workspacesOf st.rootContainer).find?
      (fun ws => ws.workspaceName == some name) with
  | none => (st, [])
  | some ws =>
    let displayed := st.rootContainer.mapKind (fun n =>
      match n.kind with
      | .monitor _ => if n.containsId ws.id then .monitor (some ws.id) else n.kind
      | k => k)
    let target := (ws.lastFocusedDescendant).getD ws
    ({ st with rootContainer := displayed.setFocusedDescendant target.id },
     [.switchedWorkspace name])

/-- The fullscreen-demotion block of `handle_window_focused` (lines 33-40):
if the focused container of the focused window's workspace is a window in
fullscreen state, demote it to `Minimized`. Rust unwraps the workspace lookup,
which cannot fail for a managed window; the `none` case is left a no-op. -/
def demoteFullscreenStep (st : WmState) (wid : Nat) : WmState × List Effect :=
  match workspaceOf st.rootContainer wid with
  | none => (st, [])
  | some ws =>
    match ws.lastFocusedDescendant with
    | none => (st, [])
    | some focusedContainer =>
      match focusedContainer.windowData with
      | none => (st, [])
      | some d =>
        if d.winState = .Fullscreen then
          ({ st with rootContainer :=
              updateWindowStateMinimized st.rootContainer focusedContainer.id },
           [.demoted focusedContainer.id])
        else (st, [])

/-- Whether `unmanaged_or_minimized_timestamp` is set and less than 100 ms
old: `.map(|time| time.elapsed().as_millis() < 100).unwrap_or(false)`. -/
def graceOpen (st : WmState) : Bool :=
  match st.unmanagedOrMinimizedTimestamp with
  | some t => decide (st.now - t < 100)
  | none => false

/-- Rust `handle_window_focused`, returning the new state together with the
list of externally visible operations in the order they were performed. -/
def handleWindowFocused (st : WmState) (nativeId : Nat) : WmState × List Effect :=
  match windowFromNative st.rootContainer nativeId with
  | none => (st, [])
  | some window =>
    if window.displayState = some .Hiding ∨ st.focusedContainerId = some window.id then
      (st, [])
    else
      let step1 := demoteFullscreenStep st window.id
      if graceOpen step1.1 then
        ({ step1.1 with pendingSyncFocusChange := true }, step1.2)
      else
        let step2 :=
          if window.displayState = some .Hidden then
            match workspaceOf step1.1.rootContainer window.id with
            | some ws =>
              let r := focusWorkspaceByName step1.1 ((ws.workspaceName).getD "")
              (r.1, step1.2 ++ r.2)
            | none => step1
          else step1
        let step3 :=
          { step2.1 with rootContainer := step2.1.rootContainer.setFocusedDescendant window.id }
        ({ step3 with pendingSyncFocusChange := true },
         step2.2 ++ [.setFocused window.id, .ranWindowRules window.id])

/-- The demotion target as claim C6 (amended) words it: the id of the focused
container of the focused window's workspace, provided that container is a
window in fullscreen state. -/
def workspaceFocusedFullscreen (st : WmState) (wid : Nat) : Option Nat :=
  match workspaceOf st.rootContainer wid with
  | none => none
  | some ws =>
    match ws.lastFocusedDescendant with
    | none => none
    | some fc =>
      match fc.windowData with
      | none => none
      | some d => if d.winState = .Fullscreen then some fc.id else none

/-! ## Workspace fullscreen lookup (`workspaces/workspace.rs`) -/

/-- The closure passed to `find` in `get_fullscreen_window`: the container
converts to a window container and its state matches `Fullscreen(_)`. -/
def isFullscreenState (container : Ctr) : Bool :=
  match container.windowData with
  | some d => d.winState == .Fullscreen
  | none => false

/-- Rust `Workspace::get_fullscreen_window`: scan the workspace's direct
children for a window container in fullscreen state. -/
def getFullscreenWindow (ws : Ctr) : Option Ctr :=
  match ws.children.find? isFullscreenState with
  | some container => if container.isWindow then some container else none
  | none => none

/-- State of the window with id `i` inside `root`, if any. -/
def windowStateOf (root : Ctr) (i : Nat) : Option WindowState :=
  ((root.selfAndDescendants.find? (fun c => c.id == i)).bind Ctr.windowData).map
    (fun d => d.winState)

/-- Stashed previous state of the window with id `i` inside `root`, if any. -/
def windowPrevStateOf (root : Ctr) (i : Nat) : Option (Option WindowState) :=
  ((root.selfAndDescendants.find? (fun c => c.id == i)).bind Ctr.windowData).map
    (fun d => d.prevState)

/-! ## Concrete states used by counterexamples and witnesses -/

/-- A tiling window (id 4) sharing a workspace with a fullscreen window
(id 3) that holds the focus, while the grace period is open. -/
def graceWindow : Ctr := .node 4 (.window { winState := .Tiling }) [] []

def graceFsWindow : Ctr := .node 3 (.window { winState := .Fullscreen }) [] []

def graceRoot : Ctr :=
  .node 0 .root
    [.node 1 (.monitor (some 2))
      [.node 2 (.workspace "1") [graceFsWindow, graceWindow] [3, 4]] [2]] [1]

def graceState : WmState :=
  { rootContainer := graceRoot
    pendingSyncFocusChange := false
    unmanagedOrMinimizedTimestamp := some 0
    now := 50 }

/-- Scenario 3 of the spec: windows A (id 3), B (id 4) tiling and C (id 5)
fullscreen and focused, C having been tiling before entering fullscreen. -/
def scn3A : Ctr := .node 3 (.window { winState := .Tiling }) [] []

def scn3B : Ctr := .node 4 (.window { winState := .Tiling }) [] []

def scn3C : Ctr :=
  .node 5 (.window { winState := .Fullscreen, prevState := some .Tiling }) [] []

def scn3Workspace : Ctr := .node 2 (.workspace "1") [scn3A, scn3B, scn3C] [5, 3, 4]

def scn3Root : Ctr :=
  .node 0 .root [.node 1 (.monitor (some 2)) [scn3Workspace] [2]] [1]

def scn3State : WmState :=
  { rootContainer := scn3Root
    pendingSyncFocusChange := false
    unmanagedOrMinimizedTimestamp := none
    now := 1000 }

/-- Two monitors: workspace 1 holds fullscreen window G (id 3, the workspace's
focused container) and tiling window w (id 4); the WM's global focus is the
tiling window F (id 7) on workspace 2 of the second monitor. -/
def crossW : Ctr := .node 4 (.window { winState := .Tiling }) [] []

def crossG : Ctr := .node 3 (.window { winState := .Fullscreen }) [] []

def crossF : Ctr := .node 7 (.window { winState := .Tiling }) [] []

def crossRoot : Ctr :=
  .node 0 .root
    [.node 1 (.monitor (some 2))
      [.node 2 (.workspace "1") [crossG, crossW] [3, 4]] [2],
     .node 5 (.monitor (some 6))
      [.node 6 (.workspace "2") [crossF] [7]] [6]] [5, 1]

def crossState : WmState :=
  { rootContainer := crossRoot
    pendingSyncFocusChange := false
    unmanagedOrMinimizedTimestamp := none
    now := 1000 }

/-- A workspace whose direct children include a fullscreen window (id 3). -/
def fsChild : Ctr := .node 3 (.window { winState := .Fullscreen }) [] []

def directFsWorkspace : Ctr :=
  .node 2 (.workspace "1") [.node 4 (.window { winState := .Tiling }) [] [], fsChild] [3, 4]

/-- A workspace whose only fullscreen window sits below a split container. -/
def deepFsWorkspace : Ctr :=
  .node 11 (.workspace "2")
    [.node 12 .split [.node 13 (.window { winState := .Fullscreen }) [] []] [13]] [12]

/-- A managed window (id 3) attached below a workspace, used for the redraw
queue. -/
def redrawWindow : Ctr := .node 3 (.window { winState := .Tiling }) [] []

def redrawRoot : Ctr :=
  .node 0 .root
    [.node 1 (.monitor (some 2)) [.node 2 (.workspace "1") [redrawWindow] [3]] [2]] [1]

/-! ## Lemmas about the resize arithmetic -/

theorem foldl_availableSize (l : List ℚ) (a : ℚ) :
    l.foldl (fun sum c => sum + c - MIN_TILING_SIZE) a =
      a + l.sum - l.length * MIN_TILING_SIZE := by
  induction l generalizing a with
  | nil => simp
  | cons x rest ih =>
    simp only [List.foldl_cons, List.sum_cons, List.length_cons, ih]
    push_cast
    ring

theorem availableSize_eq (l : List ℚ) :
    availableSize l = l.sum - l.length * MIN_TILING_SIZE := by
  simpa using foldl_availableSize l 0

theorem length_mul_le_sum (l : List ℚ) (m : ℚ) (h : ∀ s ∈ l, m ≤ s) :
    (l.length : ℚ) * m ≤ l.sum := by
  induction l with
  | nil => simp
  | cons x rest ih =>
    have hx : m ≤ x := h x (by simp)
    have hr := ih (fun s hs => h s (by simp [hs]))
    simp only [List.length_cons, List.sum_cons]
    push_cast
    nlinarith

theorem sum_map_sub_const (l : List ℚ) (c : ℚ) :
    (l.map (fun s => s - c)).sum = l.sum - l.length * c := by
  induction l with
  | nil => simp
  | cons x rest ih =>
    simp only [List.map_cons, List.sum_cons, List.length_cons, ih]
    push_cast
    ring

theorem sum_map_headroom (l : List ℚ) (m v c : ℚ) :
    (l.map (fun s => s - (s - m) / v * c)).sum =
      l.sum - (l.sum - l.length * m) / v * c := by
  induction l with
  | nil => simp
  | cons x rest ih =>
    simp only [List.map_cons, List.sum_cons, List.length_cons, ih]
    push_cast
    ring

theorem sum_all_min (l : List ℚ) (m : ℚ) (h : ∀ s ∈ l, m ≤ s)
    (hsum : l.sum = l.length * m) : ∀ s ∈ l, s = m := by
  induction l with
  | nil => simp
  | cons x rest ih =>
    have hx : m ≤ x := h x (by simp)
    have hr : (rest.length : ℚ) * m ≤ rest.sum :=
      length_mul_le_sum rest m (fun s hs => h s (by simp [hs]))
    have hsx : x + rest.sum = ((rest.length : ℚ) + 1) * m := by
      simpa [List.sum_cons, List.length_cons, add_mul] using hsum
    have hxm : x = m := by nlinarith
    intro s hs
    rcases List.mem_cons.mp hs with rfl | hs
    · exact hxm
    · exact ih (fun s hs => h s (by simp [hs]))
        (by nlinarith) s hs

theorem resize_eq_of_ne_nil (size : ℚ) (siblings : List ℚ) (delta : ℚ)
    (h : siblings ≠ []) :
    resizeTilingContainer size siblings delta =
      (size + min (max delta (MIN_TILING_SIZE - size)) (availableSize siblings),
       siblings.map (fun s =>
         s - siblingSizeDelta s siblings.length
             (min (max delta (MIN_TILING_SIZE - size)) (availableSize siblings))
             (availableSize siblings))) := by
  rw [resizeTilingContainer, if_neg (by simp [h])]

/-! ## Theorems for the claims about `resize_tiling_container` -/

/-- Claim C2: for a tiling container and siblings whose sizes lie in
`[MIN_TILING_SIZE, 1]` and sum to 1, `resize_tiling_container` preserves the
sum to within 1e-4 and leaves every tiling size, the container's included, at
least `MIN_TILING_SIZE`, for every delta. -/
theorem resize_preserves_invariants (size : ℚ) (siblings : List ℚ) (delta : ℚ)
    (hszl : MIN_TILING_SIZE ≤ size) (hszu : size ≤ 1)
    (hsb : ∀ s ∈ siblings, MIN_TILING_SIZE ≤ s ∧ s ≤ 1)
    (hsum : size + siblings.sum = 1) :
    |(resizeTilingContainer size siblings delta).1 +
        ((resizeTilingContainer size siblings delta).2).sum - 1| < 1 / 10000 ∧
    MIN_TILING_SIZE ≤ (resizeTilingContainer size siblings delta).1 ∧
    ∀ s ∈ (resizeTilingContainer size siblings delta).2, MIN_TILING_SIZE ≤ s := by
  by_cases hemp : siblings = []
  · subst hemp
    have hsz1 : size = 1 := by simpa using hsum
    subst hsz1
    norm_num [resizeTilingContainer, MIN_TILING_SIZE]
  · have hn : 0 < (siblings.length : ℚ) := by
      exact_mod_cast List.length_pos.mpr hemp
    have hnne : (siblings.length : ℚ) ≠ 0 := ne_of_gt hn
    have havail : availableSize siblings =
        siblings.sum - siblings.length * MIN_TILING_SIZE := availableSize_eq _
    have havail0 : 0 ≤ availableSize siblings := by
      have := length_mul_le_sum siblings MIN_TILING_SIZE (fun s hs => (hsb s hs).1)
      rw [havail]; linarith
    have hcllo : MIN_TILING_SIZE - size ≤
        min (max delta (MIN_TILING_SIZE - size)) (availableSize siblings) :=
      le_min (le_max_right _ _) (by linarith)
    have hclhi : min (max delta (MIN_TILING_SIZE - size)) (availableSize siblings) ≤
        availableSize siblings := min_le_right _ _
    rw [resize_eq_of_ne_nil _ _ _ hemp]
    dsimp only
    set A := availableSize siblings with hA
    set cl := min (max delta (MIN_TILING_SIZE - size)) A with hclDef
    by_cases hc : A = 0 ∨ cl < 0
    · have hmap : (fun s => s - siblingSizeDelta s siblings.length cl A) =
          fun s => s - 1 / (siblings.length : ℚ) * cl := by
        funext s
        simp only [siblingSizeDelta]
        rw [if_pos hc]
      have hcl0 : cl ≤ 0 := by
        rcases hc with h0 | hlt
        · rw [h0] at hclhi; exact hclhi
        · linarith
      refine ⟨?_, by linarith, ?_⟩
      · rw [hmap, sum_map_sub_const]
        have hzero : size + cl +
            (siblings.sum - siblings.length * (1 / (siblings.length : ℚ) * cl)) - 1 = 0 := by
          field_simp
          linarith
        rw [hzero]
        norm_num
      · rw [hmap]
        intro s hs
        rcases List.mem_map.mp hs with ⟨x, hx, rfl⟩
        have hxl := (hsb x hx).1
        have : 1 / (siblings.length : ℚ) * cl ≤ 0 :=
          mul_nonpos_of_nonneg_of_nonpos (by positivity) hcl0
        linarith
    · push_neg at hc
      have hApos : 0 < A := lt_of_le_of_ne havail0 (Ne.symm hc.1)
      have hcl0 : 0 ≤ cl := hc.2
      have hmap : (fun s => s - siblingSizeDelta s siblings.length cl A) =
          fun s => s - (s - MIN_TILING_SIZE) / A * cl := by
        funext s
        simp only [siblingSizeDelta]
        rw [if_neg (by push_neg; exact hc)]
      refine ⟨?_, by linarith, ?_⟩
      · rw [hmap, sum_map_headroom, ← havail]
        have hzero : size + cl + (siblings.sum - A / A * cl) - 1 = 0 := by
          rw [div_self hc.1]; linarith
        rw [hzero]
        norm_num
      · rw [hmap]
        intro s hs
        rcases List.mem_map.mp hs with ⟨x, hx, rfl⟩
        have hxl := (hsb x hx).1
        have h1 : (x - MIN_TILING_SIZE) / A * cl ≤ (x - MIN_TILING_SIZE) / A * A :=
          mul_le_mul_of_nonneg_left hclhi (div_nonneg (by linarith) (le_of_lt hApos))
        have h2 : (x - MIN_TILING_SIZE) / A * A = x - MIN_TILING_SIZE :=
          div_mul_cancel₀ _ hc.1
        linarith

/-- Claim C3: with a non-empty sibling set, `resize_tiling_container` applies
the delta clamped into `[MIN_TILING_SIZE − size, available_size]`; a delta
exceeding the available headroom acts exactly like resizing by the headroom,
after which every sibling sits exactly at `MIN_TILING_SIZE`. -/
theorem resize_clamps (size : ℚ) (siblings : List ℚ) (delta : ℚ)
    (hne : siblings ≠ []) (hsz : MIN_TILING_SIZE ≤ size)
    (hsb : ∀ s ∈ siblings, MIN_TILING_SIZE ≤ s) :
    (MIN_TILING_SIZE - size ≤
        min (max delta (MIN_TILING_SIZE - size)) (availableSize siblings) ∧
      min (max delta (MIN_TILING_SIZE - size)) (availableSize siblings) ≤
        availableSize siblings ∧
      (resizeTilingContainer size siblings delta).1 =
        size + min (max delta (MIN_TILING_SIZE - size)) (availableSize siblings)) ∧
    (availableSize siblings < delta →
      resizeTilingContainer size siblings delta =
        resizeTilingContainer size siblings (availableSize siblings) ∧
      ∀ s ∈ (resizeTilingContainer size siblings delta).2, s = MIN_TILING_SIZE) := by
  have havail : availableSize siblings =
      siblings.sum - siblings.length * MIN_TILING_SIZE := availableSize_eq _
  have havail0 : 0 ≤ availableSize siblings := by
    have := length_mul_le_sum siblings MIN_TILING_SIZE hsb
    rw [havail]; linarith
  have hcllo : MIN_TILING_SIZE - size ≤
      min (max delta (MIN_TILING_SIZE - size)) (availableSize siblings) :=
    le_min (le_max_right _ _) (by linarith)
  refine ⟨⟨hcllo, min_le_right _ _, by rw [resize_eq_of_ne_nil _ _ _ hne]⟩, ?_⟩
  intro hAd
  have hclam : min (max delta (MIN_TILING_SIZE - size)) (availableSize siblings) =
      availableSize siblings := by
    rw [max_eq_left (by linarith), min_eq_right (le_of_lt hAd)]
  have hclam2 : min (max (availableSize siblings) (MIN_TILING_SIZE - size))
      (availableSize siblings) = availableSize siblings := by
    rw [max_eq_left (by linarith), min_self]
  constructor
  · rw [resize_eq_of_ne_nil _ _ _ hne, resize_eq_of_ne_nil _ _ _ hne, hclam, hclam2]
  · rw [resize_eq_of_ne_nil _ _ _ hne, hclam]
    intro s hs
    rcases List.mem_map.mp hs with ⟨x, hx, rfl⟩
    by_cases hA0 : availableSize siblings = 0
    · have hall : ∀ s ∈ siblings, s = MIN_TILING_SIZE :=
        sum_all_min siblings MIN_TILING_SIZE hsb (by rw [havail] at hA0; linarith)
      have hxm := hall x hx
      rw [hA0]
      simp [siblingSizeDelta, hxm]
    · have hApos : 0 < availableSize siblings := lt_of_le_of_ne havail0 (Ne.symm hA0)
      have : siblingSizeDelta x siblings.length (availableSize siblings)
          (availableSize siblings) = x - MIN_TILING_SIZE := by
        simp only [siblingSizeDelta]
        rw [if_neg (by push_neg; exact ⟨hA0, le_of_lt hApos⟩)]
        exact div_mul_cancel₀ _ hA0
      rw [this]
      ring

/-- Claim C7: every sibling loses `resize_factor · clamped_delta`, the factor
being `1 / |S|` when the available size is zero or the clamped delta is
negative, and the sibling's proportional headroom otherwise; concretely, from
three windows of size 1/3, resizing one by +0.1 leaves the others at
1/3 − 0.05 and the resized one at 1/3 + 0.1. -/
theorem sibling_resize_formula (size : ℚ) (siblings : List ℚ) (delta : ℚ) :
    ((resizeTilingContainer size siblings delta).2 =
      siblings.map (fun s =>
        s - (if availableSize siblings = 0 ∨
                min (max delta (MIN_TILING_SIZE - size)) (availableSize siblings) < 0
             then 1 / (siblings.length : ℚ)
             else (s - MIN_TILING_SIZE) / availableSize siblings) *
            min (max delta (MIN_TILING_SIZE - size)) (availableSize siblings))) ∧
    resizeTilingContainer (1/3) [1/3, 1/3] (1/10) =
      (1/3 + 1/10, [1/3 - 1/20, 1/3 - 1/20]) := by
  constructor
  · by_cases hemp : siblings = []
    · subst hemp
      simp [resizeTilingContainer]
    · rw [resize_eq_of_ne_nil _ _ _ hemp]
      dsimp only
      congr 1
  · norm_num [resizeTilingContainer, availableSize, siblingSizeDelta, MIN_TILING_SIZE]

/-- Claim C9: with no tiling siblings, `resize_tiling_container` is a no-op
for every delta. -/
theorem resize_only_child_noop (size delta : ℚ) :
    resizeTilingContainer size [] delta = (size, []) := by
  simp [resizeTilingContainer]

/-- Witness for C2 at size 1/3, siblings `[1/3, 1/3]`, delta 100. -/
theorem resize_preserves_invariants_witness :
    (MIN_TILING_SIZE ≤ (1/3 : ℚ) ∧ (1/3 : ℚ) ≤ 1 ∧
      (∀ s ∈ ([1/3, 1/3] : List ℚ), MIN_TILING_SIZE ≤ s ∧ s ≤ 1) ∧
      (1/3 : ℚ) + ([1/3, 1/3] : List ℚ).sum = 1) ∧
    (|(resizeTilingContainer (1/3) [1/3, 1/3] 100).1 +
        ((resizeTilingContainer (1/3) [1/3, 1/3] 100).2).sum - 1| < 1 / 10000 ∧
      MIN_TILING_SIZE ≤ (resizeTilingContainer (1/3) [1/3, 1/3] 100).1 ∧
      ∀ s ∈ (resizeTilingContainer (1/3) [1/3, 1/3] 100).2, MIN_TILING_SIZE ≤ s) := by
  have h1 : MIN_TILING_SIZE ≤ (1/3 : ℚ) := by norm_num [MIN_TILING_SIZE]
  have h2 : (1/3 : ℚ) ≤ 1 := by norm_num
  have h3 : ∀ s ∈ ([1/3, 1/3] : List ℚ), MIN_TILING_SIZE ≤ s ∧ s ≤ 1 := by
    intro s hs
    rcases List.mem_cons.mp hs with rfl | hs
    · exact ⟨h1, h2⟩
    · rcases List.mem_singleton.mp hs with rfl
      exact ⟨h1, h2⟩
  have h4 : (1/3 : ℚ) + ([1/3, 1/3] : List ℚ).sum = 1 := by norm_num
  exact ⟨⟨h1, h2, h3, h4⟩, resize_preserves_invariants (1/3) [1/3, 1/3] 100 h1 h2 h3 h4⟩

/-- Witness for C3 at size 1/3, siblings `[1/3, 1/3]`, delta 5. -/
theorem resize_clamps_witness :
    (([1/3, 1/3] : List ℚ) ≠ [] ∧ MIN_TILING_SIZE ≤ (1/3 : ℚ) ∧
      (∀ s ∈ ([1/3, 1/3] : List ℚ), MIN_TILING_SIZE ≤ s) ∧
      availableSize [1/3, 1/3] < 5) ∧
    (resizeTilingContainer (1/3) [1/3, 1/3] 5 =
        resizeTilingContainer (1/3) [1/3, 1/3] (availableSize [1/3, 1/3]) ∧
      ∀ s ∈ (resizeTilingContainer (1/3) [1/3, 1/3] 5).2, s = MIN_TILING_SIZE) := by
  have h1 : ([1/3, 1/3] : List ℚ) ≠ [] := by simp
  have h2 : MIN_TILING_SIZE ≤ (1/3 : ℚ) := by norm_num [MIN_TILING_SIZE]
  have h3 : ∀ s ∈ ([1/3, 1/3] : List ℚ), MIN_TILING_SIZE ≤ s := by
    intro s hs
    rcases List.mem_cons.mp hs with rfl | hs
    · exact h2
    · rcases List.mem_singleton.mp hs with rfl
      exact h2
  have h4 : availableSize [1/3, 1/3] < 5 := by
    norm_num [availableSize, MIN_TILING_SIZE]
  exact ⟨⟨h1, h2, h3, h4⟩, (resize_clamps (1/3) [1/3, 1/3] 5 h1 h2 h3).2 h4⟩

/-! ## Theorems for the workspace fullscreen lookup -/

theorem isFullscreenState_iff (c : Ctr) :
    isFullscreenState c = true ↔ c.winState = some WindowState.Fullscreen := by
  cases hc : c.windowData <;> simp [isFullscreenState, Ctr.winState, hc]

/-- Claim C10: `get_fullscreen_window` examines only the workspace's direct
children, returning a window exactly when some direct child is a window in
fullscreen state; a fullscreen window deeper in the subtree is not found. -/
theorem get_fullscreen_window_direct (ws : Ctr) :
    ((getFullscreenWindow ws).isSome ↔
      ∃ c ∈ ws.children, c.winState = some WindowState.Fullscreen) ∧
    (∀ w, getFullscreenWindow ws = some w →
      w ∈ ws.children ∧ w.winState = some WindowState.Fullscreen) := by
  unfold getFullscreenWindow
  cases hf : ws.children.find? isFullscreenState with
  | none =>
    have hnone := List.find?_eq_none.mp hf
    refine ⟨⟨by simp, ?_⟩, by simp⟩
    rintro ⟨c, hc, hcs⟩
    exact absurd ((isFullscreenState_iff c).mpr hcs) (by simpa using hnone c hc)
  | some c =>
    have hpc : isFullscreenState c = true := List.find?_some hf
    have hmem : c ∈ ws.children := List.mem_of_find?_eq_some hf
    have hcs : c.winState = some WindowState.Fullscreen :=
      (isFullscreenState_iff c).mp hpc
    have hwin : c.isWindow = true := by
      unfold Ctr.winState at hcs
      cases hd : c.windowData
      · rw [hd] at hcs; simp at hcs
      · simp [Ctr.isWindow, hd]
    simp only [hwin, if_true]
    exact ⟨⟨fun _ => ⟨c, hmem, hcs⟩, fun _ => rfl⟩,
      fun w hw => by cases hw; exact ⟨hmem, hcs⟩⟩

/-- Witness for C10: the fullscreen direct child of `directFsWorkspace` is
found, while the fullscreen window below a split in `deepFsWorkspace` is not. -/
theorem get_fullscreen_window_witness :
    (fsChild ∈ directFsWorkspace.children ∧
      fsChild.winState = some WindowState.Fullscreen) ∧
    getFullscreenWindow deepFsWorkspace = none :=
  ⟨(get_fullscreen_window_direct directFsWorkspace).2 fsChild (by rfl), by rfl⟩

/-! ## Theorems for the redraw queue -/

/-- Claim C8 counterexample: the same managed window enqueued twice appears
twice in `windows_to_redraw`; its id is duplicated. -/
theorem windows_to_redraw_duplicate :
    (windowsToRedraw redrawRoot [redrawWindow, redrawWindow]).map Ctr.id = [3, 3] ∧
    ¬ ((windowsToRedraw redrawRoot [redrawWindow, redrawWindow]).map Ctr.id).Nodup := by
  decide

/-- Claim C8 (amended): the redraw list is each queued container expanded to
its non-detached window descendants, concatenated in queue order with no
deduplication, so a window enqueued through several queue entries appears
several times. -/
theorem windows_to_redraw_no_dedup (root : Ctr) (queue : List Ctr) :
    windowsToRedraw root queue =
      (queue.map (fun c => windowsToRedraw root [c])).flatten := by
  induction queue with
  | nil => rfl
  | cons c rest ih =>
    simp only [windowsToRedraw, List.map_cons, List.map_nil, List.flatten_cons,
      List.flatten_nil, List.filter_append, List.filterMap_append, List.filter_nil,
      List.filterMap_nil, List.append_nil] at ih ⊢
    rw [ih]

/-! ## Lemmas about the demotion step of the focused-event handler -/

theorem demoteFullscreenStep_effects (st : WmState) (wid : Nat) :
    (demoteFullscreenStep st wid).2 =
      (match workspaceFocusedFullscreen st wid with
       | some i => [Effect.demoted i]
       | none => []) := by
  unfold demoteFullscreenStep workspaceFocusedFullscreen
  cases hws : workspaceOf st.rootContainer wid with
  | none => rfl
  | some ws =>
    dsimp only
    cases hfc : ws.lastFocusedDescendant with
    | none => rfl
    | some fc =>
      dsimp only
      cases hd : fc.windowData with
      | none => rfl
      | some d =>
        dsimp only
        by_cases h : d.winState = WindowState.Fullscreen <;> simp [h]

theorem demoteFullscreenStep_fields (st : WmState) (wid : Nat) :
    (demoteFullscreenStep st wid).1.unmanagedOrMinimizedTimestamp =
      st.unmanagedOrMinimizedTimestamp ∧
    (demoteFullscreenStep st wid).1.now = st.now ∧
    (demoteFullscreenStep st wid).1.pendingSyncFocusChange =
      st.pendingSyncFocusChange := by
  unfold demoteFullscreenStep
  cases hws : workspaceOf st.rootContainer wid with
  | none => exact ⟨rfl, rfl, rfl⟩
  | some ws =>
    dsimp only
    cases hfc : ws.lastFocusedDescendant with
    | none => exact ⟨rfl, rfl, rfl⟩
    | some fc =>
      dsimp only
      cases hd : fc.windowData with
      | none => exact ⟨rfl, rfl, rfl⟩
      | some d =>
        dsimp only
        by_cases h : d.winState = WindowState.Fullscreen <;> simp [h]

theorem graceOpen_demote (st : WmState) (wid : Nat) :
    graceOpen (demoteFullscreenStep st wid).1 = graceOpen st := by
  have h := demoteFullscreenStep_fields st wid
  unfold graceOpen
  rw [h.1, h.2.1]

/-! ## Theorems for the focused-event handler -/

/-- Claim C1 counterexample: with the grace period open (timestamp 0, now 50)
and the workspace's focused container a fullscreen window (id 3), the handler
for window 4 sets the pending focus sync and returns, but has already demoted
window 3 to `Minimized` — a window state change, which the claim rules out. -/
theorem grace_override_counterexample :
    windowStateOf graceState.rootContainer 3 = some WindowState.Fullscreen ∧
    graceState.focusedContainerId = some 3 ∧
    graceState.unmanagedOrMinimizedTimestamp = some 0 ∧
    graceState.now - 0 < 100 ∧
    (handleWindowFocused graceState 4).1.pendingSyncFocusChange = true ∧
    (handleWindowFocused graceState 4).2 = [Effect.demoted 3] ∧
    windowStateOf (handleWindowFocused graceState 4).1.rootContainer 3 =
      some WindowState.Minimized := by
  decide

/-- Claim C1 (amended): for a managed window that passes the Hiding /
already-focused guard, when `unmanaged_or_minimized_timestamp` is set and less
than 100 ms old the handler sets `pending_sync.focus_change` to true and
returns; apart from the fullscreen demotion that runs before the grace-period
check, nothing else changes — the only effects are demotions, and the
timestamp and clock fields are untouched. -/
theorem grace_override_amended (st : WmState) (nativeId : Nat) (w : Ctr)
    (hw : windowFromNative st.rootContainer nativeId = some w)
    (hhide : w.displayState ≠ some DisplayState.Hiding)
    (hfoc : st.focusedContainerId ≠ some w.id)
    (hgrace : graceOpen st = true) :
    handleWindowFocused st nativeId =
      ({ (demoteFullscreenStep st w.id).1 with pendingSyncFocusChange := true },
       (demoteFullscreenStep st w.id).2) ∧
    (∀ e ∈ (demoteFullscreenStep st w.id).2, ∃ i, e = Effect.demoted i) ∧
    (demoteFullscreenStep st w.id).1.unmanagedOrMinimizedTimestamp =
      st.unmanagedOrMinimizedTimestamp ∧
    (demoteFullscreenStep st w.id).1.now = st.now := by
  have hfields := demoteFullscreenStep_fields st w.id
  have hgr : graceOpen (demoteFullscreenStep st w.id).1 = true := by
    rw [graceOpen_demote]; exact hgrace
  refine ⟨?_, ?_, hfields.1, hfields.2.1⟩
  · unfold handleWindowFocused
    rw [hw]
    dsimp only
    rw [if_neg (by push_neg; exact ⟨hhide, hfoc⟩), if_pos hgr]
  · intro e he
    rw [demoteFullscreenStep_effects] at he
    cases hwf : workspaceFocusedFullscreen st w.id with
    | none => rw [hwf] at he; simp at he
    | some i =>
      rw [hwf] at he
      simp only [List.mem_singleton] at he
      exact ⟨i, he⟩

/-- Witness for C1 (amended) at the concrete grace-period state. -/
theorem grace_override_witness :
    (windowFromNative graceState.rootContainer 4 = some graceWindow ∧
      graceWindow.displayState ≠ some DisplayState.Hiding ∧
      graceState.focusedContainerId ≠ some graceWindow.id ∧
      graceOpen graceState = true) ∧
    handleWindowFocused graceState 4 =
      ({ (demoteFullscreenStep graceState graceWindow.id).1 with
          pendingSyncFocusChange := true },
       (demoteFullscreenStep graceState graceWindow.id).2) :=
  ⟨⟨rfl, by decide, by decide, rfl⟩,
   (grace_override_amended graceState 4 graceWindow rfl (by decide) (by decide) rfl).1⟩

/-- Claim C5 counterexample: in spec scenario 3 (A, B tiling; C fullscreen and
focused, previously tiling), focusing A demotes C to `Minimized`, not to its
prior state `Tiling` as the claim asserts. -/
theorem fullscreen_demote_counterexample :
    scn3State.focusedContainerId = some 5 ∧
    windowStateOf scn3State.rootContainer 5 = some WindowState.Fullscreen ∧
    windowPrevStateOf scn3State.rootContainer 5 = some (some WindowState.Tiling) ∧
    scn3State.unmanagedOrMinimizedTimestamp = none ∧
    (handleWindowFocused scn3State 3).2 =
      [Effect.demoted 5, Effect.setFocused 3, Effect.ranWindowRules 3] ∧
    windowStateOf (handleWindowFocused scn3State 3).1.rootContainer 5 =
      some WindowState.Minimized ∧
    ¬ windowStateOf (handleWindowFocused scn3State 3).1.rootContainer 5 =
      some WindowState.Tiling := by
  decide

/-- Claim C5 (amended): when the focused container of the focused window's
workspace is a fullscreen window, the handler (outside the grace period, for a
displayed window passing the guard) demotes it to `Minimized` — not to its
prior state — before making the incoming window the focused descendant: the
resulting tree is the minimizing update followed by the focus update, and the
demotion effect strictly precedes the focus effect. -/
theorem fullscreen_demote_amended (st : WmState) (nativeId : Nat) (w ws fs : Ctr)
    (d : WindowData)
    (hw : windowFromNative st.rootContainer nativeId = some w)
    (hhide : w.displayState ≠ some DisplayState.Hiding)
    (hfoc : st.focusedContainerId ≠ some w.id)
    (hws : workspaceOf st.rootContainer w.id = some ws)
    (hfs : ws.lastFocusedDescendant = some fs)
    (hd : fs.windowData = some d)
    (hful : d.winState = WindowState.Fullscreen)
    (hgrace : graceOpen st = false)
    (hhidden : w.displayState ≠ some DisplayState.Hidden) :
    (handleWindowFocused st nativeId).1.rootContainer =
      (updateWindowStateMinimized st.rootContainer fs.id).setFocusedDescendant w.id ∧
    (handleWindowFocused st nativeId).2 =
      [Effect.demoted fs.id, Effect.setFocused w.id, Effect.ranWindowRules w.id] := by
  have hstep : demoteFullscreenStep st w.id =
      ({ st with rootContainer := updateWindowStateMinimized st.rootContainer fs.id },
       [Effect.demoted fs.id]) := by
    unfold demoteFullscreenStep
    rw [hws]
    dsimp only
    rw [hfs]
    dsimp only
    rw [hd]
    dsimp only
    rw [if_pos hful]
  have hgr : ¬ graceOpen (demoteFullscreenStep st w.id).1 = true := by
    rw [graceOpen_demote, hgrace]; simp
  unfold handleWindowFocused
  rw [hw]
  dsimp only
  rw [if_neg (by push_neg; exact ⟨hhide, hfoc⟩), if_neg hgr, if_neg hhidden, hstep]
  exact ⟨rfl, rfl⟩

/-- Witness for C5 (amended) at the concrete scenario-3 state. -/
theorem fullscreen_demote_witness :
    (windowFromNative scn3State.rootContainer 3 = some scn3A ∧
      scn3A.displayState ≠ some DisplayState.Hiding ∧
      scn3State.focusedContainerId ≠ some scn3A.id ∧
      workspaceOf scn3State.rootContainer scn3A.id = some scn3Workspace ∧
      scn3Workspace.lastFocusedDescendant = some scn3C ∧
      scn3C.windowData =
        some { winState := WindowState.Fullscreen, prevState := some WindowState.Tiling } ∧
      graceOpen scn3State = false ∧
      scn3A.displayState ≠ some DisplayState.Hidden) ∧
    (handleWindowFocused scn3State 3).2 =
      [Effect.demoted scn3C.id, Effect.setFocused scn3A.id,
       Effect.ranWindowRules scn3A.id] :=
  ⟨⟨rfl, by decide, by decide, rfl, rfl, rfl, rfl, by decide⟩,
   (fullscreen_demote_amended scn3State 3 scn3A scn3Workspace scn3C
      { winState := WindowState.Fullscreen, prevState := some WindowState.Tiling }
      rfl (by decide) (by decide) rfl rfl rfl rfl rfl (by decide)).2⟩

theorem focusWorkspace_effects (st : WmState) (name : String) :
    (focusWorkspaceByName st name).2 = [] ∨
    (focusWorkspaceByName st name).2 = [Effect.switchedWorkspace name] := by
  unfold focusWorkspaceByName
  cases hf : (workspacesOf st.rootContainer).find?
      (fun ws => ws.workspaceName == some name) with
  | none => exact Or.inl rfl
  | some ws => exact Or.inr rfl

/-- Claim C6 counterexample: the WM's focused container is the tiling window 7
on the second monitor (not fullscreen), yet focusing window 4 on the first
monitor demotes window 3 — the fullscreen focused container of window 4's own
workspace. The claim predicts no demotion when the WM's focused container is
not a fullscreen window. -/
theorem demote_wm_focus_counterexample :
    crossState.focusedContainerId = some 7 ∧
    windowStateOf crossState.rootContainer 7 = some WindowState.Tiling ∧
    windowStateOf crossState.rootContainer 3 = some WindowState.Fullscreen ∧
    Effect.demoted 3 ∈ (handleWindowFocused crossState 4).2 ∧
    windowStateOf (handleWindowFocused crossState 4).1.rootContainer 3 =
      some WindowState.Minimized := by
  decide

/-- Claim C6 (amended): for a managed window passing the guard, a demotion to
`Minimized` occurs exactly when the focused container of that window's own
workspace — not necessarily the WM's focused container — is a window in
fullscreen state, and the demotion targets precisely that container. -/
theorem demote_workspace_focus_amended (st : WmState) (nativeId : Nat) (w : Ctr)
    (hw : windowFromNative st.rootContainer nativeId = some w)
    (hhide : w.displayState ≠ some DisplayState.Hiding)
    (hfoc : st.focusedContainerId ≠ some w.id) :
    ∀ i, (Effect.demoted i ∈ (handleWindowFocused st nativeId).2 ↔
      workspaceFocusedFullscreen st w.id = some i) := by
  intro i
  have heff := demoteFullscreenStep_effects st w.id
  have hmem : Effect.demoted i ∈ (demoteFullscreenStep st w.id).2 ↔
      workspaceFocusedFullscreen st w.id = some i := by
    rw [heff]
    cases hwf : workspaceFocusedFullscreen st w.id with
    | none => simp
    | some j => simp [eq_comm]
  unfold handleWindowFocused
  rw [hw]
  dsimp only
  rw [if_neg (by push_neg; exact ⟨hhide, hfoc⟩)]
  by_cases hgr : graceOpen (demoteFullscreenStep st w.id).1 = true
  · rw [if_pos hgr]
    exact hmem
  · rw [if_neg hgr]
    by_cases hh : w.displayState = some DisplayState.Hidden
    · rw [if_pos hh]
      dsimp only
      cases hws2 : workspaceOf (demoteFullscreenStep st w.id).1.rootContainer w.id with
      | none =>
        dsimp only
        simpa [List.mem_append] using hmem
      | some ws2 =>
        dsimp only
        rcases focusWorkspace_effects (demoteFullscreenStep st w.id).1
            ((ws2.workspaceName).getD "") with h2 | h2 <;>
          · rw [h2]
            simpa [List.mem_append] using hmem
    · rw [if_neg hh]
      dsimp only
      simpa [List.mem_append] using hmem

/-- Witness for C6 (amended) at the concrete two-monitor state. -/
theorem demote_workspace_focus_witness :
    (windowFromNative crossState.rootContainer 4 = some crossW ∧
      crossW.displayState ≠ some DisplayState.Hiding ∧
      crossState.focusedContainerId ≠ some crossW.id) ∧
    (Effect.demoted 3 ∈ (handleWindowFocused crossState 4).2 ↔
      workspaceFocusedFullscreen crossState crossW.id = some 3) :=
  ⟨⟨rfl, by decide, by decide⟩,
   demote_workspace_focus_amended crossState 4 crossW rfl (by decide) (by decide) 3⟩

/-! ## Theorems for the focus target after removal -/

theorem find?_asWindowData (l : List Ctr) (q : WindowData → Bool) :
    ((l.filterMap asWindowData).find? (fun p => q p.2)).map Prod.fst =
      l.find? (fun c => c.isWindow &&
        (match c.windowData with
         | some d => q d
         | none => false)) := by
  induction l with
  | nil => rfl
  | cons c rest ih =>
    cases hc : c.windowData with
    | none =>
      have h1 : asWindowData c = none := by simp [asWindowData, hc]
      simp only [List.filterMap_cons, h1, List.find?_cons, Ctr.isWindow, hc,
        Option.isSome_none, Bool.false_and, cond_false]
      exact ih
    | some d =>
      have h1 : asWindowData c = some (c, d) := by simp [asWindowData, hc]
      simp only [List.filterMap_cons, h1, List.find?_cons, Ctr.isWindow, hc,
        Option.isSome_some, Bool.true_and]
      by_cases hq : q d = true
      · simp [hq]
      · simp only [Bool.not_eq_true] at hq
        simp only [hq, cond_false]
        exact ih

/-- Claim C4: `focus_target_after_removal` computes exactly the selection the
spec words describe — `none` unless the removed window is the focused
container, else the first same-state-kind window of the workspace's descendant
focus order (minus the removed window), else its first non-minimized window,
else its first entry of any kind, else the workspace itself. -/
theorem focus_target_after_removal_matches_spec (st : WmState) (w : Ctr) :
    focusTargetAfterRemoval st w = focusTargetSpecSide st w := by
  unfold focusTargetAfterRemoval focusTargetSpecSide
  by_cases hfoc : st.focusedContainerId ≠ some w.id
  · rw [if_pos hfoc, if_pos hfoc]
  · rw [if_neg hfoc, if_neg hfoc]
    cases hws : workspaceOf st.rootContainer w.id with
    | none => rfl
    | some ws =>
      dsimp only
      have h1 :
          (((ws.descendantFocusOrder.filter
              (fun descendant => descendant.id != w.id)).filterMap asWindowData).find?
            (fun descendant =>
              match w.windowData with
              | some wd => kindMatch descendant.2.winState wd.winState
              | none => false)).map Prod.fst =
          (ws.descendantFocusOrder.filter
              (fun descendant => descendant.id != w.id)).find?
            (fun c => c.isWindow &&
              (match c.windowData with
               | some d =>
                 match w.windowData with
                 | some wd => kindMatch d.winState wd.winState
                 | none => false
               | none => false)) :=
        find?_asWindowData
          (ws.descendantFocusOrder.filter (fun descendant => descendant.id != w.id))
          (fun dd =>
            match w.windowData with
            | some wd => kindMatch dd.winState wd.winState
            | none => false)
      have h2 :
          (((ws.descendantFocusOrder.filter
              (fun descendant => descendant.id != w.id)).filterMap asWindowData).find?
            (fun descendant => descendant.2.winState != WindowState.Minimized)).map
              Prod.fst =
          (ws.descendantFocusOrder.filter
              (fun descendant => descendant.id != w.id)).find?
            (fun c => c.isWindow &&
              (match c.windowData with
               | some d => d.winState != WindowState.Minimized
               | none => false)) :=
        find?_asWindowData
          (ws.descendantFocusOrder.filter (fun descendant => descendant.id != w.id))
          (fun dd => dd.winState != WindowState.Minimized)
      rw [h1, h2]
      have hpred :
          (fun c => c.isWindow &&
            (match c.windowData with
             | some d =>
               match w.windowData with
               | some wd => kindMatch d.winState wd.winState
               | none => false
             | none => false)) =
          (fun c : Ctr => c.isWindow &&
            (match c.windowData, w.windowData with
             | some dd, some wd => kindMatch dd.winState wd.winState
             | _, _ => false)) := by
        funext c
        cases hA : c.windowData <;> cases hB : w.windowData <;> simp
      rw [hpred]
      cases (ws.descendantFocusOrder.filter (fun d => d.id != w.id)).find?
          (fun c : Ctr => c.isWindow &&
            (match c.windowData, w.windowData with
             | some dd, some wd => kindMatch dd.winState wd.winState
             | _, _ => false)) with
      | none =>
        dsimp only
        rw [Option.none_or, Option.or_assoc]
      | some t => rfl

end Glazewm
